import Mathlib

/-
Verification of the producer/consumer driver (src/kern/asst1/producerconsumer_driver.c)
and of the bounded-buffer synchronization core it drives.

The driver file is embedded directly.  The synchronization core
(producerconsumer.c, declared in producerconsumer_driver.h) is not part of the
repository sources; where a claim depends on its behaviour it is modelled from
the specification, and each such definition says so in its doc comment.
-/

namespace ProducerConsumer

/-- Number of producer threads (producerconsumer_driver.c line 23). -/
def NUM_PRODUCERS : Nat := 2

/-- Number of consumer threads (producerconsumer_driver.c line 28). -/
def NUM_CONSUMERS : Nat := 5

/-- Items each producer generates (producerconsumer_driver.c line 33). -/
def ITEMS_TO_PRODUCE : Nat := 30

/-- Consumer bored-exit threshold (producerconsumer_driver.c line 39). -/
def CONSUMER_BORED_COUNT : Nat := 10000

/-- The item payload, `struct pc_data` with fields `item1`, `item2`. -/
structure pc_data where
  item1 : Int
  item2 : Int
deriving DecidableEq

/-- The body of `producer_thread`'s loop `while(--items_to_go) { ... }`:
called with the value of `items_to_go` before the pre-decrement, it returns the
list of items passed to `producer_produce`, in order.  The `0` case cannot be
reached from the real entry value `ITEMS_TO_PRODUCE = 30` (in C it would
decrement `0` to `-1` and keep looping); it is mapped to the empty list. -/
def producer_loop (thread_num : Nat) : Nat → List pc_data
  | 0 => []
  | items_to_go + 1 =>
    if items_to_go = 0 then []
    else
      { item1 := (items_to_go : Int) + 1000 * (thread_num : Int),
        item2 := (items_to_go : Int) + 1000 * (thread_num : Int) + 1 } ::
        producer_loop thread_num items_to_go

/-- All items submitted by `producer_thread` with the given `thread_num`
(producerconsumer_driver.c lines 51-74). -/
def producer_items (thread_num : Nat) : List pc_data :=
  producer_loop thread_num ITEMS_TO_PRODUCE

/-- Every element of `producer_loop t n` has `item1 = k + 1000*t` for some
`1 ≤ k < n`, and `item2 = item1 + 1`. -/
lemma producer_loop_mem (t : Nat) :
    ∀ (n : Nat) (d : pc_data), d ∈ producer_loop t n →
      ∃ k : Nat, 1 ≤ k ∧ k < n ∧
        d.item1 = (k : Int) + 1000 * (t : Int) ∧ d.item2 = d.item1 + 1 := by
  intro n
  induction n with
  | zero => intro d hd; simp [producer_loop] at hd
  | succ m ih =>
    intro d hd
    by_cases hm : m = 0
    · subst hm; simp [producer_loop] at hd
    · rw [producer_loop, if_neg hm] at hd
      rcases List.mem_cons.mp hd with h | h
      · refine ⟨m, by omega, by omega, ?_, ?_⟩
        · rw [h]
        · rw [h]
      · obtain ⟨k, hk1, hk2, hk3, hk4⟩ := ih d h
        exact ⟨k, hk1, by omega, hk3, hk4⟩

/-- C3: the producer loop `while(--items_to_go)` pre-decrements before the
test, so each producer calls `producer_produce` only `ITEMS_TO_PRODUCE - 1 = 29`
times, not the `ITEMS_TO_PRODUCE = 30` times stated by the claim and by the
driver's own comment ("This function calls producer_produce ITEMS_TO_PRODUCE
times and then exits", lines 47-49).  With two producers the total of real
items is `2 * 29 = 58`, not `2 * 30 = 60`. -/
theorem producer_item_count_bug :
    (producer_items 0).length = ITEMS_TO_PRODUCE - 1 ∧
    (producer_items 1).length = ITEMS_TO_PRODUCE - 1 ∧
    NUM_PRODUCERS * ((producer_items 0).length + (producer_items 1).length) ≠
      2 * (NUM_PRODUCERS * ITEMS_TO_PRODUCE) ∧
    (producer_items 0).length + (producer_items 1).length = 58 := by
  decide

/-- C10: every item a producer thread submits has both components nonzero:
`item1 = items_to_go + 1000*thread_num` with `items_to_go ≥ 1` and
`item2 = item1 + 1`, so no driver-generated item satisfies the consumer's
end-of-stream exit test (`item1 = 0 ∨ item2 = 0`) and none equals the
`(0, 0)` shutdown sentinel enqueued by `stop_consumer_threads`. -/
theorem producer_items_nonzero :
    ∀ t : Nat, t < NUM_PRODUCERS →
      ∀ d : pc_data, d ∈ producer_items t →
        (∃ k : Nat, 1 ≤ k ∧ d.item1 = (k : Int) + 1000 * (t : Int)) ∧
        d.item2 = d.item1 + 1 ∧
        d.item1 ≠ 0 ∧ d.item2 ≠ 0 ∧
        ¬(d.item1 = 0 ∨ d.item2 = 0) ∧
        d ≠ { item1 := 0, item2 := 0 } := by
  intro t ht d hd
  obtain ⟨k, hk1, _, hk3, hk4⟩ := producer_loop_mem t ITEMS_TO_PRODUCE d hd
  have h1 : d.item1 ≠ 0 := by
    rw [hk3]
    have : (0 : Int) ≤ 1000 * (t : Int) := by positivity
    omega
  have h2 : d.item2 ≠ 0 := by
    rw [hk4, hk3]
    have : (0 : Int) ≤ 1000 * (t : Int) := by positivity
    omega
  refine ⟨⟨k, hk1, hk3⟩, hk4, h1, h2, by tauto, ?_⟩
  intro hcontra
  exact h1 (by rw [hcontra])

/-- C10 witness at thread 0 and its first item (29, 30). -/
theorem producer_items_nonzero_witness :
    (∃ k : Nat, 1 ≤ k ∧
        ({ item1 := 29, item2 := 30 } : pc_data).item1 = (k : Int) + 1000 * ((0 : Nat) : Int)) ∧
    ({ item1 := 29, item2 := 30 } : pc_data).item2 =
        ({ item1 := 29, item2 := 30 } : pc_data).item1 + 1 ∧
    ({ item1 := 29, item2 := 30 } : pc_data).item1 ≠ 0 ∧
    ({ item1 := 29, item2 := 30 } : pc_data).item2 ≠ 0 ∧
    ¬(({ item1 := 29, item2 := 30 } : pc_data).item1 = 0 ∨
        ({ item1 := 29, item2 := 30 } : pc_data).item2 = 0) ∧
    ({ item1 := 29, item2 := 30 } : pc_data) ≠ { item1 := 0, item2 := 0 } :=
  producer_items_nonzero 0 (by decide) { item1 := 29, item2 := 30 } (by decide)

/-- The items enqueued by `stop_consumer_threads` to tell consumers to exit:
`NUM_CONSUMERS` copies of the `(0, 0)` sentinel
(producerconsumer_driver.c lines 173-195). -/
def stop_consumer_items : List pc_data :=
  List.replicate NUM_CONSUMERS { item1 := 0, item2 := 0 }

/-- C5: `stop_consumer_threads` enqueues via `producer_produce` exactly
`NUM_CONSUMERS` sentinel items, every one equal to `(0, 0)` — one end-of-stream
delivery per consumer thread, no more and no fewer. -/
theorem stop_consumer_threads_sentinels :
    stop_consumer_items.length = NUM_CONSUMERS ∧
    (∀ d : pc_data, d ∈ stop_consumer_items → d.item1 = 0 ∧ d.item2 = 0) ∧
    stop_consumer_items.count { item1 := 0, item2 := 0 } = NUM_CONSUMERS := by
  refine ⟨by decide, ?_, by decide⟩
  intro d hd
  have := List.eq_of_mem_replicate hd
  rw [this]
  exact ⟨rfl, rfl⟩

/-- C5 witness: the sentinel itself is a member and satisfies the property. -/
theorem stop_consumer_threads_sentinels_witness :
    ({ item1 := 0, item2 := 0 } : pc_data).item1 = 0 ∧
    ({ item1 := 0, item2 := 0 } : pc_data).item2 = 0 :=
  stop_consumer_threads_sentinels.2.1 { item1 := 0, item2 := 0 } (by decide)

/-- Observable outcome of one run of `consumer_thread`
(producerconsumer_driver.c lines 82-116): number of `consumer_consume` calls
made, number of "Unexpected data" error reports, whether the thread left the
loop through the bored-count break, and how many times it signalled the
`consumer_finished` semaphore. -/
structure ConsumerResult where
  calls : Nat
  errors : Nat
  bored : Bool
  finished_signals : Nat
deriving DecidableEq

/-- The consume loop of `consumer_thread`, over the stream `s` of items
returned by successive `consumer_consume` calls (`s i` is the result of call
number `i + 1`).  `idx` is the index of the item currently held in `thedata`;
`bored_count` and `errs` mirror the C locals.  `fuel` is the number of loop
iterations still possible before the bored break, i.e.
`CONSUMER_BORED_COUNT - bored_count`; it only makes the recursion structural,
and the `fuel = 0` case is unreachable from the real entry point
(`bored_count = 0`, `fuel = CONSUMER_BORED_COUNT`). -/
def consumer_loop (s : Nat → pc_data) : Nat → Nat → Nat → Nat → ConsumerResult
  | 0, idx, _, errs =>
    { calls := idx + 1, errors := errs, bored := true, finished_signals := 1 }
  | fuel + 1, idx, bored_count, errs =>
    if (s idx).item1 ≠ 0 ∧ (s idx).item2 ≠ 0 then
      if bored_count + 1 = CONSUMER_BORED_COUNT then
        { calls := idx + 1, errors := errs, bored := true, finished_signals := 1 }
      else
        consumer_loop s fuel (idx + 1) (bored_count + 1)
          (if (s idx).item1 + 1 ≠ (s idx).item2 then errs + 1 else errs)
    else
      { calls := idx + 1, errors := errs, bored := false, finished_signals := 1 }

/-- One full run of `consumer_thread` over the stream `s`:
the loop entered with `bored_count = 0`. -/
def consumer_thread_run (s : Nat → pc_data) : ConsumerResult :=
  consumer_loop s CONSUMER_BORED_COUNT 0 0 0

/-- Both exits of the consume loop signal `consumer_finished` exactly once. -/
lemma consumer_loop_signals (s : Nat → pc_data) :
    ∀ (fuel idx bored_count errs : Nat),
      (consumer_loop s fuel idx bored_count errs).finished_signals = 1 := by
  intro fuel
  induction fuel with
  | zero => intro idx bc errs; rfl
  | succ f ih =>
    intro idx bc errs
    rw [consumer_loop]
    split_ifs with h1 h2 h3
    · rfl
    · exact ih (idx + 1) (bc + 1) _
    · exact ih (idx + 1) (bc + 1) _
    · rfl

/-- The loop makes at least one `consumer_consume` call past the item it holds. -/
lemma consumer_loop_calls_ge (s : Nat → pc_data) :
    ∀ (fuel idx bored_count errs : Nat),
      idx + 1 ≤ (consumer_loop s fuel idx bored_count errs).calls := by
  intro fuel
  induction fuel with
  | zero => intro idx bc errs; exact Nat.le_refl _
  | succ f ih =>
    intro idx bc errs
    rw [consumer_loop]
    split_ifs with h1 h2 h3
    · exact Nat.le_refl _
    · exact Nat.le_trans (by omega) (ih (idx + 1) (bc + 1) _)
    · exact Nat.le_trans (by omega) (ih (idx + 1) (bc + 1) _)
    · exact Nat.le_refl _

/-- Call bound: from a state where `bored_count + fuel = CONSUMER_BORED_COUNT`,
the loop makes at most `fuel` further calls beyond the `idx` it holds. -/
lemma consumer_loop_calls_le (s : Nat → pc_data) :
    ∀ (fuel idx bored_count errs : Nat),
      bored_count < CONSUMER_BORED_COUNT →
      bored_count + fuel = CONSUMER_BORED_COUNT →
      (consumer_loop s fuel idx bored_count errs).calls ≤ idx + fuel := by
  intro fuel
  induction fuel with
  | zero => intro idx bc errs hbc hinv; omega
  | succ f ih =>
    intro idx bc errs hbc hinv
    rw [consumer_loop]
    split_ifs with h1 h2 h3
    · show idx + 1 ≤ idx + (f + 1); omega
    · exact Nat.le_trans (ih (idx + 1) (bc + 1) _ (by omega) (by omega)) (by omega)
    · exact Nat.le_trans (ih (idx + 1) (bc + 1) _ (by omega) (by omega)) (by omega)
    · show idx + 1 ≤ idx + (f + 1); omega

/-- If no item of the stream ever passes the exit test, the loop runs into the
bored break after exactly `fuel` iterations. -/
lemma consumer_loop_no_sentinel (s : Nat → pc_data)
    (hs : ∀ i, (s i).item1 ≠ 0 ∧ (s i).item2 ≠ 0) :
    ∀ (fuel idx bored_count errs : Nat),
      bored_count < CONSUMER_BORED_COUNT →
      bored_count + fuel = CONSUMER_BORED_COUNT →
      (consumer_loop s fuel idx bored_count errs).bored = true ∧
      (consumer_loop s fuel idx bored_count errs).calls = idx + fuel := by
  intro fuel
  induction fuel with
  | zero => intro idx bc errs hbc hinv; omega
  | succ f ih =>
    intro idx bc errs hbc hinv
    rw [consumer_loop]
    split_ifs with h1 h2 h3
    · exact ⟨rfl, by show idx + 1 = idx + (f + 1); omega⟩
    · obtain ⟨hb, hc⟩ := ih (idx + 1) (bc + 1) _ (by omega) (by omega)
      exact ⟨hb, by rw [hc]; omega⟩
    · obtain ⟨hb, hc⟩ := ih (idx + 1) (bc + 1) _ (by omega) (by omega)
      exact ⟨hb, by rw [hc]; omega⟩
    · exact absurd (hs idx) h1

/-- The error count never decreases along the loop. -/
lemma consumer_loop_errors_ge (s : Nat → pc_data) :
    ∀ (fuel idx bored_count errs : Nat),
      errs ≤ (consumer_loop s fuel idx bored_count errs).errors := by
  intro fuel
  induction fuel with
  | zero => intro idx bc errs; exact Nat.le_refl _
  | succ f ih =>
    intro idx bc errs
    rw [consumer_loop]
    split_ifs with h1 h2 h3
    · exact Nat.le_refl _
    · exact Nat.le_trans (by omega) (ih (idx + 1) (bc + 1) (errs + 1))
    · exact ih (idx + 1) (bc + 1) errs
    · exact Nat.le_refl _

/-- If every item the loop can still relation-check (those strictly before the
possible bored break, i.e. offsets `j` with `j + 1 < fuel`) satisfies
`item1 + 1 = item2`, no error is ever reported.  The item at offset
`fuel - 1` — the one the bored break skips — is unconstrained. -/
lemma consumer_loop_errors_eq (s : Nat → pc_data) :
    ∀ (fuel idx bored_count errs : Nat),
      bored_count < CONSUMER_BORED_COUNT →
      bored_count + fuel = CONSUMER_BORED_COUNT →
      (∀ j : Nat, j + 1 < fuel →
        (s (idx + j)).item1 + 1 = (s (idx + j)).item2) →
      (consumer_loop s fuel idx bored_count errs).errors = errs := by
  intro fuel
  induction fuel with
  | zero => intro idx bc errs hbc hinv hrel; omega
  | succ f ih =>
    intro idx bc errs hbc hinv hrel
    rw [consumer_loop]
    split_ifs with h1 h2 h3
    · rfl
    · have hf : 1 ≤ f := by omega
      have hrel0 : (s idx).item1 + 1 = (s idx).item2 := by
        have := hrel 0 (by omega)
        simpa using this
      exact absurd hrel0 h3
    · refine ih (idx + 1) (bc + 1) errs (by omega) (by omega) ?_
      intro j hj
      have := hrel (j + 1) (by omega)
      have harg : idx + (j + 1) = idx + 1 + j := by omega
      rwa [harg] at this
    · rfl

/-- Stepping the loop past `m` leading real items: the run equals the run of
the tail loop starting at item `idx + m`, with some accumulated error count. -/
lemma consumer_loop_skip (s : Nat → pc_data) :
    ∀ (m fuel idx bored_count errs : Nat),
      bored_count + fuel = CONSUMER_BORED_COUNT →
      m < fuel →
      (∀ j : Nat, j < m → (s (idx + j)).item1 ≠ 0 ∧ (s (idx + j)).item2 ≠ 0) →
      ∃ errs2 : Nat,
        consumer_loop s fuel idx bored_count errs =
          consumer_loop s (fuel - m) (idx + m) (bored_count + m) errs2 := by
  intro m
  induction m with
  | zero =>
    intro fuel idx bc errs hinv hm hpre
    exact ⟨errs, by simp⟩
  | succ k ih =>
    intro fuel idx bc errs hinv hm hpre
    cases fuel with
    | zero => omega
    | succ f =>
      have hnz : (s idx).item1 ≠ 0 ∧ (s idx).item2 ≠ 0 := by
        have h := hpre 0 (by omega)
        rwa [Nat.add_zero] at h
      have hstep : consumer_loop s (f + 1) idx bc errs =
          consumer_loop s f (idx + 1) (bc + 1)
            (if (s idx).item1 + 1 ≠ (s idx).item2 then errs + 1 else errs) := by
        rw [consumer_loop, if_pos hnz,
          if_neg (by omega : ¬(bc + 1 = CONSUMER_BORED_COUNT))]
      have hpre2 : ∀ j : Nat, j < k →
          (s (idx + 1 + j)).item1 ≠ 0 ∧ (s (idx + 1 + j)).item2 ≠ 0 := by
        intro j hj
        have h := hpre (j + 1) (by omega)
        have harg : idx + (j + 1) = idx + 1 + j := by omega
        rwa [harg] at h
      obtain ⟨errs2, htail⟩ := ih f (idx + 1) (bc + 1)
        (if (s idx).item1 + 1 ≠ (s idx).item2 then errs + 1 else errs)
        (by omega) (by omega) hpre2
      refine ⟨errs2, ?_⟩
      rw [hstep, htail]
      have e1 : f + 1 - (k + 1) = f - k := by omega
      have e2 : idx + (k + 1) = idx + 1 + k := by omega
      have e3 : bc + (k + 1) = bc + 1 + k := by omega
      rw [e1, e2, e3]

/-- The loop ends at the item it currently holds through the normal exit —
treating it as end-of-stream — exactly when that item has a zero component. -/
lemma consumer_loop_exit_iff (s : Nat → pc_data) :
    ∀ (fuel idx bored_count errs : Nat),
      bored_count < CONSUMER_BORED_COUNT →
      bored_count + fuel = CONSUMER_BORED_COUNT →
      (((consumer_loop s fuel idx bored_count errs).calls = idx + 1 ∧
        (consumer_loop s fuel idx bored_count errs).bored = false) ↔
        ((s idx).item1 = 0 ∨ (s idx).item2 = 0)) := by
  intro fuel idx bc errs hbc hinv
  cases fuel with
  | zero => omega
  | succ f =>
    rw [consumer_loop]
    by_cases h1 : (s idx).item1 ≠ 0 ∧ (s idx).item2 ≠ 0
    · rw [if_pos h1]
      by_cases h2 : bc + 1 = CONSUMER_BORED_COUNT
      · rw [if_pos h2]
        constructor
        · intro hc
          simp at hc
        · intro hz
          rcases hz with hz | hz
          · exact absurd hz h1.1
          · exact absurd hz h1.2
      · rw [if_neg h2]
        constructor
        · intro hc
          have := consumer_loop_calls_ge s f (idx + 1) (bc + 1)
            (if (s idx).item1 + 1 ≠ (s idx).item2 then errs + 1 else errs)
          omega
        · intro hz
          rcases hz with hz | hz
          · exact absurd hz h1.1
          · exact absurd hz h1.2
    · rw [if_neg h1]
      constructor
      · intro _
        by_cases hz1 : (s idx).item1 = 0
        · exact Or.inl hz1
        · exact Or.inr (by_contra fun hz2 => h1 ⟨hz1, hz2⟩)
      · intro _
        exact ⟨rfl, rfl⟩

/-- When the item currently held is real but the bored break is due
(`bored_count + 1 = CONSUMER_BORED_COUNT`), the loop still ends at that item,
through the bored break. -/
lemma consumer_loop_bored_exit (s : Nat → pc_data) :
    ∀ (fuel idx bored_count errs : Nat),
      bored_count + 1 = CONSUMER_BORED_COUNT →
      bored_count + fuel = CONSUMER_BORED_COUNT →
      (s idx).item1 ≠ 0 → (s idx).item2 ≠ 0 →
      (consumer_loop s fuel idx bored_count errs).calls = idx + 1 ∧
      (consumer_loop s fuel idx bored_count errs).bored = true := by
  intro fuel idx bc errs hb hinv h1 h2
  cases fuel with
  | zero => omega
  | succ f =>
    rw [consumer_loop, if_pos ⟨h1, h2⟩, if_pos hb]
    exact ⟨rfl, rfl⟩

/-- Number of items among the `k` stream items starting at index `j` that
violate the `item1 + 1 = item2` relation. -/
def checked_viol (s : Nat → pc_data) : Nat → Nat → Nat
  | _, 0 => 0
  | j, k + 1 =>
    (if (s j).item1 + 1 ≠ (s j).item2 then 1 else 0) + checked_viol s (j + 1) k

/-- The error count of the loop is exactly the number of relation violations
among the items it relation-checks: all received items except the one at
which the loop exits (the calls count minus one items starting at `idx`). -/
lemma consumer_loop_errors_char (s : Nat → pc_data) :
    ∀ (fuel idx bored_count errs : Nat),
      bored_count < CONSUMER_BORED_COUNT →
      bored_count + fuel = CONSUMER_BORED_COUNT →
      (consumer_loop s fuel idx bored_count errs).errors =
        errs + checked_viol s idx
          ((consumer_loop s fuel idx bored_count errs).calls - (idx + 1)) := by
  intro fuel
  induction fuel with
  | zero => intro idx bc errs hbc hinv; omega
  | succ f ih =>
    intro idx bc errs hbc hinv
    rw [consumer_loop]
    split_ifs with h1 h2 h3
    · simp [checked_viol]
    · have hge := consumer_loop_calls_ge s f (idx + 1) (bc + 1) (errs + 1)
      have hih := ih (idx + 1) (bc + 1) (errs + 1) (by omega) (by omega)
      rw [hih]
      have hk : (consumer_loop s f (idx + 1) (bc + 1) (errs + 1)).calls - (idx + 1) =
          ((consumer_loop s f (idx + 1) (bc + 1) (errs + 1)).calls - (idx + 1 + 1)) + 1 := by
        omega
      rw [hk, checked_viol, if_pos h3]
      omega
    · have hge := consumer_loop_calls_ge s f (idx + 1) (bc + 1) errs
      have hih := ih (idx + 1) (bc + 1) errs (by omega) (by omega)
      rw [hih]
      have hk : (consumer_loop s f (idx + 1) (bc + 1) errs).calls - (idx + 1) =
          ((consumer_loop s f (idx + 1) (bc + 1) errs).calls - (idx + 1 + 1)) + 1 := by
        omega
      rw [hk, checked_viol, if_neg h3]
      omega
    · simp [checked_viol]

/-- No violations counted among `k` relation-respecting items. -/
lemma checked_viol_eq_zero (s : Nat → pc_data) :
    ∀ (k a : Nat),
      (∀ j : Nat, a ≤ j → j < a + k → (s j).item1 + 1 = (s j).item2) →
      checked_viol s a k = 0 := by
  intro k
  induction k with
  | zero => intro a _; rfl
  | succ n ih =>
    intro a hrel
    rw [checked_viol, if_neg (fun hne => hne (hrel a (Nat.le_refl a) (by omega)))]
    rw [ih (a + 1) (fun j hj1 hj2 => hrel j (by omega) (by omega))]

/-- A violating item among the `k` counted items yields a positive count. -/
lemma checked_viol_pos (s : Nat → pc_data) :
    ∀ (k a m : Nat), a ≤ m → m < a + k →
      (s m).item1 + 1 ≠ (s m).item2 →
      1 ≤ checked_viol s a k := by
  intro k
  induction k with
  | zero => intro a m h1 h2 _; omega
  | succ n ih =>
    intro a m h1 h2 hbad
    rw [checked_viol]
    by_cases ha : m = a
    · subst ha
      rw [if_pos hbad]
      omega
    · have := ih (a + 1) m (by omega) (by omega) hbad
      split <;> omega

/-- C9: for every stream of items returned by `consumer_consume` — even one
that never contains the exit sentinel — `consumer_thread` makes at most
`CONSUMER_BORED_COUNT` calls to `consumer_consume`, signals
`consumer_finished` exactly once, and if no item ever passes the exit test it
leaves through the bored-count break (reporting the bored error) after exactly
`CONSUMER_BORED_COUNT` calls. -/
theorem consumer_bored_bound :
    ∀ s : Nat → pc_data,
      (consumer_thread_run s).calls ≤ CONSUMER_BORED_COUNT ∧
      (consumer_thread_run s).finished_signals = 1 ∧
      ((∀ i, (s i).item1 ≠ 0 ∧ (s i).item2 ≠ 0) →
        (consumer_thread_run s).bored = true ∧
        (consumer_thread_run s).calls = CONSUMER_BORED_COUNT) := by
  intro s
  refine ⟨?_, consumer_loop_signals s CONSUMER_BORED_COUNT 0 0 0, ?_⟩
  · have h := consumer_loop_calls_le s CONSUMER_BORED_COUNT 0 0 0 (by decide) (by omega)
    simpa [consumer_thread_run] using h
  · intro hs
    have h := consumer_loop_no_sentinel s hs CONSUMER_BORED_COUNT 0 0 0 (by decide) (by omega)
    simpa [consumer_thread_run] using h

/-- C9 witness: a stream of constant real items never triggers the exit test. -/
theorem consumer_bored_bound_witness :
    (consumer_thread_run (fun _ => { item1 := 1, item2 := 2 })).calls ≤ CONSUMER_BORED_COUNT ∧
    (consumer_thread_run (fun _ => { item1 := 1, item2 := 2 })).finished_signals = 1 ∧
    (consumer_thread_run (fun _ => { item1 := 1, item2 := 2 })).bored = true := by
  obtain ⟨h1, h2, h3⟩ := consumer_bored_bound (fun _ => { item1 := 1, item2 := 2 })
  exact ⟨h1, h2, (h3 (fun i => ⟨by decide, by decide⟩)).1⟩

/-- C4 counterexample: the item `(0, 5)` has a nonzero component, so by the
claim it should be treated as real data and processed; instead
`consumer_thread` leaves its consume loop at the very first call (treating it
as end-of-stream, with the normal — not bored — exit and no processing). -/
theorem consumer_eos_test_cex :
    (consumer_thread_run (fun _ => { item1 := 0, item2 := 5 })).calls = 1 ∧
    (consumer_thread_run (fun _ => { item1 := 0, item2 := 5 })).bored = false ∧
    (consumer_thread_run (fun _ => { item1 := 0, item2 := 5 })).errors = 0 ∧
    ({ item1 := 0, item2 := 5 } : pc_data).item2 ≠ 0 ∧
    ({ item1 := 0, item2 := 5 } : pc_data) ≠ { item1 := 0, item2 := 0 } := by
  decide

/-- C4 as amended, for every received item: for any index `m` (the item
returned by consume call `m + 1`) preceded by real items only, the loop treats
that item as end-of-stream — exiting through the normal exit at that item —
exactly when `item1 = 0` OR `item2 = 0`; an item with both components nonzero
received before call number `CONSUMER_BORED_COUNT` is processed and the loop
continues past it; and the item received exactly at call
`CONSUMER_BORED_COUNT`, when both components are nonzero, still ends the loop,
but through the bored break rather than the end-of-stream exit. -/
theorem consumer_eos_exit_iff :
    ∀ (s : Nat → pc_data) (m : Nat),
      m < CONSUMER_BORED_COUNT →
      (∀ j : Nat, j < m → (s j).item1 ≠ 0 ∧ (s j).item2 ≠ 0) →
      (((consumer_thread_run s).calls = m + 1 ∧
        (consumer_thread_run s).bored = false) ↔
        ((s m).item1 = 0 ∨ (s m).item2 = 0)) ∧
      (m + 1 < CONSUMER_BORED_COUNT → (s m).item1 ≠ 0 → (s m).item2 ≠ 0 →
        m + 2 ≤ (consumer_thread_run s).calls) ∧
      (m + 1 = CONSUMER_BORED_COUNT → (s m).item1 ≠ 0 → (s m).item2 ≠ 0 →
        (consumer_thread_run s).calls = m + 1 ∧
        (consumer_thread_run s).bored = true) := by
  intro s m hm hpre
  have hpre0 : ∀ j : Nat, j < m →
      (s (0 + j)).item1 ≠ 0 ∧ (s (0 + j)).item2 ≠ 0 := by
    intro j hj
    rw [Nat.zero_add]
    exact hpre j hj
  obtain ⟨errs2, hskip⟩ := consumer_loop_skip s m CONSUMER_BORED_COUNT 0 0 0
    (by omega) hm hpre0
  simp only [Nat.zero_add] at hskip
  refine ⟨?_, ?_, ?_⟩
  · unfold consumer_thread_run
    rw [hskip]
    exact consumer_loop_exit_iff s (CONSUMER_BORED_COUNT - m) m m errs2 hm
      (by omega)
  · intro hlt h1 h2
    have hpre1 : ∀ j : Nat, j < m + 1 →
        (s (0 + j)).item1 ≠ 0 ∧ (s (0 + j)).item2 ≠ 0 := by
      intro j hj
      rw [Nat.zero_add]
      by_cases hjm : j = m
      · rw [hjm]; exact ⟨h1, h2⟩
      · exact hpre j (by omega)
    obtain ⟨errs3, hskip2⟩ := consumer_loop_skip s (m + 1) CONSUMER_BORED_COUNT
      0 0 0 (by omega) (by omega) hpre1
    simp only [Nat.zero_add] at hskip2
    unfold consumer_thread_run
    rw [hskip2]
    have := consumer_loop_calls_ge s (CONSUMER_BORED_COUNT - (m + 1)) (m + 1)
      (m + 1) errs3
    omega
  · intro heq h1 h2
    unfold consumer_thread_run
    rw [hskip]
    exact consumer_loop_bored_exit s (CONSUMER_BORED_COUNT - m) m m errs2
      (by omega) (by omega) h1 h2

/-- C4 witness: the `(0, 0)` shutdown sentinel ends the loop normally at call
1; a real first item is processed and the loop continues; and on an all-real
stream the item of call `CONSUMER_BORED_COUNT` (index 9999) ends the loop
through the bored break. -/
theorem consumer_eos_exit_iff_witness :
    ((consumer_thread_run (fun _ => { item1 := 0, item2 := 0 })).calls = 1 ∧
      (consumer_thread_run (fun _ => { item1 := 0, item2 := 0 })).bored =
        false) ∧
    2 ≤ (consumer_thread_run (fun _ => { item1 := 1, item2 := 2 })).calls ∧
    ((consumer_thread_run (fun _ => { item1 := 1, item2 := 2 })).calls =
        9999 + 1 ∧
      (consumer_thread_run (fun _ => { item1 := 1, item2 := 2 })).bored =
        true) :=
  ⟨(consumer_eos_exit_iff (fun _ => { item1 := 0, item2 := 0 }) 0 (by decide)
      (fun j hj => absurd hj (by omega))).1.mpr (Or.inl rfl),
   (consumer_eos_exit_iff (fun _ => { item1 := 1, item2 := 2 }) 0 (by decide)
      (fun j hj => absurd hj (by omega))).2.1 (by decide) (by decide)
      (by decide),
   (consumer_eos_exit_iff (fun _ => { item1 := 1, item2 := 2 }) 9999
      (by decide) (fun j hj => by norm_num)).2.2 (by decide)
      (by decide) (by decide)⟩

/-- C8 counterexample: in the stream whose item at index 9999 (returned by
consume call number 10000 = `CONSUMER_BORED_COUNT`) is `(5, 7)` — a received
item that is not treated as end-of-stream and violates `item1 + 1 = item2` —
the consumer reports no data error at all: the bored break at
`CONSUMER_BORED_COUNT` skips the relation check on that item. -/
theorem consumer_relation_check_cex :
    (consumer_thread_run
        (fun i => if i = 9999 then { item1 := 5, item2 := 7 }
          else { item1 := 1, item2 := 2 })).errors = 0 ∧
    (consumer_thread_run
        (fun i => if i = 9999 then { item1 := 5, item2 := 7 }
          else { item1 := 1, item2 := 2 })).calls = CONSUMER_BORED_COUNT ∧
    ({ item1 := 5, item2 := 7 } : pc_data).item1 + 1 ≠
        ({ item1 := 5, item2 := 7 } : pc_data).item2 ∧
    ({ item1 := 5, item2 := 7 } : pc_data).item1 ≠ 0 ∧
    ({ item1 := 5, item2 := 7 } : pc_data).item2 ≠ 0 := by
  refine ⟨?_, ?_, by decide, by decide, by decide⟩
  · refine consumer_loop_errors_eq _ CONSUMER_BORED_COUNT 0 0 0 (by decide) (by omega) ?_
    intro j hj
    have hj' : ¬(0 + j = 9999) := by
      unfold CONSUMER_BORED_COUNT at hj
      omega
    simp only [if_neg hj']
    decide
  · have hs : ∀ i : Nat,
        ((fun i => if i = 9999 then ({ item1 := 5, item2 := 7 } : pc_data)
          else { item1 := 1, item2 := 2 }) i).item1 ≠ 0 ∧
        ((fun i => if i = 9999 then ({ item1 := 5, item2 := 7 } : pc_data)
          else { item1 := 1, item2 := 2 }) i).item2 ≠ 0 := by
      intro i
      by_cases hi : i = 9999 <;> simp [hi]
    have h := consumer_loop_no_sentinel _ hs CONSUMER_BORED_COUNT 0 0 0 (by decide) (by omega)
    simpa [consumer_thread_run] using h.2

/-- C8 as amended: every real item a producer thread submits satisfies
`item2 = item1 + 1`; the consumer's error count equals exactly the number of
relation violations among the items it relation-checks — every received item
except the one at which the loop exits (the end-of-stream item, or the item
arriving exactly at the bored-count break, which is never checked, as the
counterexample shows).  Hence, per received-and-checked item, an error is
reported iff `item1 + 1 ≠ item2`: no error when all checked items satisfy the
relation — in particular in a sentinel-terminated run of producer items — and
at least one error whenever any received item before the exit item violates
it. -/
theorem consumer_relation_check_amended :
    (∀ t : Nat, ∀ d : pc_data, d ∈ producer_items t → d.item2 = d.item1 + 1) ∧
    (∀ s : Nat → pc_data,
      (consumer_thread_run s).errors =
        checked_viol s 0 ((consumer_thread_run s).calls - 1)) ∧
    (∀ s : Nat → pc_data,
      (∀ j : Nat, j + 1 < (consumer_thread_run s).calls →
        (s j).item1 + 1 = (s j).item2) →
      (consumer_thread_run s).errors = 0) ∧
    (∀ s : Nat → pc_data, ∀ m : Nat,
      m + 1 < (consumer_thread_run s).calls →
      (s m).item1 + 1 ≠ (s m).item2 →
      1 ≤ (consumer_thread_run s).errors) := by
  have hchar : ∀ s : Nat → pc_data,
      (consumer_thread_run s).errors =
        checked_viol s 0 ((consumer_thread_run s).calls - 1) := by
    intro s
    have h := consumer_loop_errors_char s CONSUMER_BORED_COUNT 0 0 0
      (by decide) (by omega)
    simpa [consumer_thread_run] using h
  refine ⟨?_, hchar, ?_, ?_⟩
  · intro t d hd
    obtain ⟨_, _, _, _, hk4⟩ := producer_loop_mem t ITEMS_TO_PRODUCE d hd
    exact hk4
  · intro s hrel
    rw [hchar s]
    refine checked_viol_eq_zero s ((consumer_thread_run s).calls - 1) 0 ?_
    intro j hj1 hj2
    exact hrel j (by omega)
  · intro s m hm hbad
    rw [hchar s]
    exact checked_viol_pos s ((consumer_thread_run s).calls - 1) 0 m
      (by omega) (by omega) hbad

/-- C8 amended witness: the producer relation at a concrete item; the error
characterization at a concrete stream; no error in a sentinel-terminated run
of one relation-respecting item; one error reported for a received, checked,
violating item. -/
theorem consumer_relation_check_amended_witness :
    ({ item1 := 29, item2 := 30 } : pc_data).item2 =
        ({ item1 := 29, item2 := 30 } : pc_data).item1 + 1 ∧
    (consumer_thread_run (fun _ => { item1 := 0, item2 := 0 })).errors =
      checked_viol (fun _ => { item1 := 0, item2 := 0 }) 0
        ((consumer_thread_run (fun _ => { item1 := 0, item2 := 0 })).calls -
          1) ∧
    (consumer_thread_run (fun i => if i = 0 then { item1 := 1, item2 := 2 }
        else { item1 := 0, item2 := 0 })).errors = 0 ∧
    1 ≤ (consumer_thread_run (fun i => if i = 0 then { item1 := 5, item2 := 7 }
        else { item1 := 0, item2 := 0 })).errors := by
  refine ⟨consumer_relation_check_amended.1 0 { item1 := 29, item2 := 30 }
      (by decide),
    consumer_relation_check_amended.2.1 (fun _ => { item1 := 0, item2 := 0 }),
    consumer_relation_check_amended.2.2.1 _ ?_,
    consumer_relation_check_amended.2.2.2 _ 0 ?_ (by decide)⟩
  · intro j hj
    have hc : (consumer_thread_run
        (fun i => if i = 0 then ({ item1 := 1, item2 := 2 } : pc_data)
          else { item1 := 0, item2 := 0 })).calls = 2 := by decide
    rw [hc] at hj
    have hj0 : j = 0 := by omega
    rw [hj0]
    decide
  · have hc : (consumer_thread_run
        (fun i => if i = 0 then ({ item1 := 5, item2 := 7 } : pc_data)
          else { item1 := 0, item2 := 0 })).calls = 2 := by decide
    rw [hc]
    omega

/-- The observable actions of `run_producerconsumer` at startup
(producerconsumer_driver.c lines 198-222): creating the two completion
semaphores (success abstracted as a boolean), panicking, calling
`producerconsumer_startup`, and starting the worker threads.  `runRestAct`
stands for the rest of the simulation.  A kernel `panic` halts everything, so
nothing follows `panicAct`. -/
inductive HarnessAct where
  | semCreateConsAct
  | semCreateProdAct
  | panicAct
  | startupAct
  | startConsumersAct
  | startProducersAct
  | runRestAct
deriving DecidableEq

/-- The action sequence of `run_producerconsumer` given whether the creation
of `consumer_finished` and of `producer_finished` succeeds
(producerconsumer_driver.c lines 206-222). -/
def run_producerconsumer_startup (consOk prodOk : Bool) : List HarnessAct :=
  HarnessAct.semCreateConsAct ::
    (if consOk = false then [HarnessAct.panicAct]
     else HarnessAct.semCreateProdAct ::
       (if prodOk = false then [HarnessAct.panicAct]
        else [HarnessAct.startupAct, HarnessAct.startConsumersAct,
          HarnessAct.startProducersAct, HarnessAct.runRestAct]))

/-- C7: if allocation of either completion semaphore fails,
`run_producerconsumer` ends in a panic, `producerconsumer_startup` is never
invoked, no consumer or producer thread is started, and neither allocation is
retried. -/
theorem startup_alloc_failure_panics :
    ∀ consOk prodOk : Bool, (consOk = false ∨ prodOk = false) →
      HarnessAct.panicAct ∈ run_producerconsumer_startup consOk prodOk ∧
      (run_producerconsumer_startup consOk prodOk).getLast? =
        some HarnessAct.panicAct ∧
      HarnessAct.startupAct ∉ run_producerconsumer_startup consOk prodOk ∧
      HarnessAct.startConsumersAct ∉ run_producerconsumer_startup consOk prodOk ∧
      HarnessAct.startProducersAct ∉ run_producerconsumer_startup consOk prodOk ∧
      (run_producerconsumer_startup consOk prodOk).count
        HarnessAct.semCreateConsAct = 1 ∧
      (run_producerconsumer_startup consOk prodOk).count
        HarnessAct.semCreateProdAct ≤ 1 := by
  intro consOk prodOk h
  cases consOk <;> cases prodOk
  · decide
  · decide
  · decide
  · rcases h with h | h <;> exact absurd h (by decide)

/-- C7 witness: failure of the `consumer_finished` allocation. -/
theorem startup_alloc_failure_panics_witness :
    HarnessAct.panicAct ∈ run_producerconsumer_startup false true ∧
    (run_producerconsumer_startup false true).getLast? =
      some HarnessAct.panicAct ∧
    HarnessAct.startupAct ∉ run_producerconsumer_startup false true ∧
    HarnessAct.startConsumersAct ∉ run_producerconsumer_startup false true ∧
    HarnessAct.startProducersAct ∉ run_producerconsumer_startup false true ∧
    (run_producerconsumer_startup false true).count
      HarnessAct.semCreateConsAct = 1 ∧
    (run_producerconsumer_startup false true).count
      HarnessAct.semCreateProdAct ≤ 1 :=
  startup_alloc_failure_panics false true (Or.inl rfl)

/-- Events of a run of the simulation that matter for shutdown sequencing:
`pwait` is the completion of one `P(producer_finished)` inside
`wait_for_producer_threads` (line 163); `vprod t` is producer `t`'s single
`V(producer_finished)` (line 73); `sentinelEv` is one `producer_produce((0,0))`
call in `stop_consumer_threads` (line 187); `vcons c` is consumer `c`'s single
`V(consumer_finished)` (line 114); `cwait` is the completion of one
`P(consumer_finished)` (line 192); `shutdownEv` is the
`producerconsumer_shutdown()` call (line 231). -/
inductive Event where
  | pwait
  | vprod (t : Nat)
  | sentinelEv
  | vcons (c : Nat)
  | cwait
  | shutdownEv
deriving DecidableEq

/-- Events executed by the main harness thread. -/
def isHarnessEv : Event → Bool
  | Event.pwait => true
  | Event.sentinelEv => true
  | Event.cwait => true
  | Event.shutdownEv => true
  | _ => false

/-- Events that are a producer's completion signal. -/
def isVprodEv : Event → Bool
  | Event.vprod _ => true
  | _ => false

/-- Events that are a consumer's completion signal. -/
def isVconsEv : Event → Bool
  | Event.vcons _ => true
  | _ => false

/-- The harness thread's events in program order
(producerconsumer_driver.c lines 227-231, expanding lines 157-166 and
173-195): `NUM_PRODUCERS` completed `P(producer_finished)`, then
`NUM_CONSUMERS` sentinel enqueues, then `NUM_CONSUMERS` completed
`P(consumer_finished)`, then the shutdown call. -/
def harnessProgram : List Event :=
  List.replicate NUM_PRODUCERS Event.pwait ++
    (List.replicate NUM_CONSUMERS Event.sentinelEv ++
      (List.replicate NUM_CONSUMERS Event.cwait ++ [Event.shutdownEv]))

/-- A valid interleaving of the simulation's events: the harness thread's
events appear in program order; each of the `NUM_PRODUCERS` producers signals
`producer_finished` exactly once (line 73) and each of the `NUM_CONSUMERS`
consumers signals `consumer_finished` exactly once (line 114); and both
semaphores are created with count 0 (lines 207, 212), so in every prefix of
the run the completed `P` operations never outnumber the earlier `V`
operations on the same semaphore. -/
def ValidTrace (tr : List Event) : Prop :=
  tr.filter isHarnessEv = harnessProgram ∧
  (tr.filter isVprodEv).length = NUM_PRODUCERS ∧
  (∀ t : Nat, t < NUM_PRODUCERS → tr.count (Event.vprod t) = 1) ∧
  (tr.filter isVconsEv).length = NUM_CONSUMERS ∧
  (∀ c : Nat, c < NUM_CONSUMERS → tr.count (Event.vcons c) = 1) ∧
  (∀ n : Nat, n ≤ tr.length →
    (tr.take n).count Event.pwait ≤ ((tr.take n).filter isVprodEv).length) ∧
  (∀ n : Nat, n ≤ tr.length →
    (tr.take n).count Event.cwait ≤ ((tr.take n).filter isVconsEv).length)

/-- Splitting a concatenation at an element that cannot occur in a known
prefix: the split point lies past that prefix. -/
lemma split_not_mem {α : Type} [DecidableEq α] (x : α) :
    ∀ (P A B T : List α), x ∉ P → A ++ x :: B = P ++ T →
      ∃ A', A = P ++ A' ∧ A' ++ x :: B = T := by
  intro P
  induction P with
  | nil =>
    intro A B T _ h
    exact ⟨A, by simp, by simpa using h⟩
  | cons p P ihp =>
    intro A B T hx h
    cases A with
    | nil =>
      exfalso
      simp only [List.nil_append, List.cons_append, List.cons.injEq] at h
      exact hx (by rw [h.1]; exact List.mem_cons_self p P)
    | cons a A1 =>
      simp only [List.cons_append, List.cons.injEq] at h
      obtain ⟨A', hA, hT⟩ :=
        ihp A1 B T (fun hm => hx (List.mem_cons_of_mem p hm)) h.2
      exact ⟨A', by rw [List.cons_append, hA, h.1], hT⟩

/-- In the harness program, every sentinel enqueue is preceded by all
`NUM_PRODUCERS` completed `P(producer_finished)` operations. -/
lemma pwait_before_sentinel (preH B : List Event)
    (h : preH ++ Event.sentinelEv :: B = harnessProgram) :
    preH.count Event.pwait = NUM_PRODUCERS := by
  obtain ⟨A', hA, hT⟩ := split_not_mem Event.sentinelEv
    (List.replicate NUM_PRODUCERS Event.pwait) preH B
    (List.replicate NUM_CONSUMERS Event.sentinelEv ++
      (List.replicate NUM_CONSUMERS Event.cwait ++ [Event.shutdownEv]))
    (by decide) h
  have hA' : A'.count Event.pwait = 0 := by
    rw [List.count_eq_zero]
    intro hmem
    have hmem2 : Event.pwait ∈ A' ++ Event.sentinelEv :: B :=
      List.mem_append.mpr (Or.inl hmem)
    rw [hT] at hmem2
    exact absurd hmem2 (by decide)
  rw [hA, List.count_append, hA']
  decide

/-- In the harness program, the shutdown call is the last event, after all
`NUM_CONSUMERS` completed `P(consumer_finished)` operations. -/
lemma cwait_before_shutdown (preH B : List Event)
    (h : preH ++ Event.shutdownEv :: B = harnessProgram) :
    preH.count Event.cwait = NUM_CONSUMERS := by
  have hre : harnessProgram =
      (List.replicate NUM_PRODUCERS Event.pwait ++
        (List.replicate NUM_CONSUMERS Event.sentinelEv ++
          List.replicate NUM_CONSUMERS Event.cwait)) ++ [Event.shutdownEv] := by
    decide
  rw [hre] at h
  obtain ⟨A', hA, hT⟩ := split_not_mem Event.shutdownEv
    (List.replicate NUM_PRODUCERS Event.pwait ++
      (List.replicate NUM_CONSUMERS Event.sentinelEv ++
        List.replicate NUM_CONSUMERS Event.cwait)) preH B
    [Event.shutdownEv] (by decide) h
  cases A' with
  | nil =>
    rw [hA, List.append_nil]
    decide
  | cons a A1 =>
    exfalso
    have := congrArg List.length hT
    simp at this

/-- Occurrences of a single event satisfying a filter are no more numerous
than the whole filtered sublist. -/
lemma count_le_filter_len (a : Event) (p : Event → Bool) (hp : p a = true) :
    ∀ l : List Event, l.count a ≤ (l.filter p).length := by
  intro l
  induction l with
  | nil => simp
  | cons b l ih =>
    rw [List.count_cons]
    by_cases hb : p b
    · rw [List.filter_cons_of_pos hb, List.length_cons]
      split <;> omega
    · rw [List.filter_cons_of_neg hb]
      by_cases hba : b == a
      · exact absurd (by rw [eq_of_beq hba]; exact hp) hb
      · rw [if_neg hba]
        omega

/-- C6: in any valid interleaving, all `NUM_PRODUCERS` producer completion
signals on `producer_finished` occur before any shutdown sentinel is enqueued,
and all `NUM_CONSUMERS` consumer completion signals on `consumer_finished`
occur before `producerconsumer_shutdown` is called: the harness completes the
produce, close, drain, consume-until-end-of-stream sequence before releasing
resources. -/
theorem shutdown_sequencing :
    ∀ (tr pre rest : List Event), ValidTrace tr →
      ((tr = pre ++ Event.sentinelEv :: rest →
        ∀ t : Nat, t < NUM_PRODUCERS → Event.vprod t ∈ pre) ∧
       (tr = pre ++ Event.shutdownEv :: rest →
        ∀ c : Nat, c < NUM_CONSUMERS → Event.vcons c ∈ pre)) := by
  intro tr pre rest hval
  obtain ⟨hH, hVPlen, hVPcnt, hVClen, hVCcnt, hSemP, hSemC⟩ := hval
  constructor
  · intro heq t ht
    have hsplit : pre.filter isHarnessEv ++
        Event.sentinelEv :: rest.filter isHarnessEv = harnessProgram := by
      rw [← hH, heq, List.filter_append, List.filter_cons_of_pos (by decide)]
    have hcnt : (pre.filter isHarnessEv).count Event.pwait = NUM_PRODUCERS :=
      pwait_before_sentinel _ _ hsplit
    have hcntpre : pre.count Event.pwait = NUM_PRODUCERS := by
      rw [← hcnt]
      simp [isHarnessEv]
    have hplen : pre.length ≤ tr.length := by
      rw [heq, List.length_append]
      omega
    have hsem := hSemP pre.length hplen
    rw [heq, List.take_left] at hsem
    rw [hcntpre] at hsem
    have htotal : (pre.filter isVprodEv).length +
        ((Event.sentinelEv :: rest).filter isVprodEv).length = NUM_PRODUCERS := by
      rw [← List.length_append, ← List.filter_append, ← heq]
      exact hVPlen
    have hrest0 : ((Event.sentinelEv :: rest).filter isVprodEv).length = 0 := by
      omega
    have htot := hVPcnt t ht
    rw [heq, List.count_append] at htot
    have hno : (Event.sentinelEv :: rest).count (Event.vprod t) = 0 := by
      have := count_le_filter_len (Event.vprod t) isVprodEv rfl
        (Event.sentinelEv :: rest)
      omega
    exact List.count_pos_iff.mp (by omega)
  · intro heq c hc
    have hsplit : pre.filter isHarnessEv ++
        Event.shutdownEv :: rest.filter isHarnessEv = harnessProgram := by
      rw [← hH, heq, List.filter_append, List.filter_cons_of_pos (by decide)]
    have hcnt : (pre.filter isHarnessEv).count Event.cwait = NUM_CONSUMERS :=
      cwait_before_shutdown _ _ hsplit
    have hcntpre : pre.count Event.cwait = NUM_CONSUMERS := by
      rw [← hcnt]
      simp [isHarnessEv]
    have hplen : pre.length ≤ tr.length := by
      rw [heq, List.length_append]
      omega
    have hsem := hSemC pre.length hplen
    rw [heq, List.take_left] at hsem
    rw [hcntpre] at hsem
    have htotal : (pre.filter isVconsEv).length +
        ((Event.shutdownEv :: rest).filter isVconsEv).length = NUM_CONSUMERS := by
      rw [← List.length_append, ← List.filter_append, ← heq]
      exact hVClen
    have hrest0 : ((Event.shutdownEv :: rest).filter isVconsEv).length = 0 := by
      omega
    have htot := hVCcnt c hc
    rw [heq, List.count_append] at htot
    have hno : (Event.shutdownEv :: rest).count (Event.vcons c) = 0 := by
      have := count_le_filter_len (Event.vcons c) isVconsEv rfl
        (Event.shutdownEv :: rest)
      omega
    exact List.count_pos_iff.mp (by omega)

/-- C6 witness: a concrete valid interleaving, split at its first sentinel and
at its shutdown event. -/
theorem shutdown_sequencing_witness :
    Event.vprod 0 ∈
      ([Event.vprod 0, Event.vprod 1, Event.pwait, Event.pwait] : List Event) ∧
    Event.vcons 4 ∈
      ([Event.vprod 0, Event.vprod 1, Event.pwait, Event.pwait,
        Event.sentinelEv, Event.sentinelEv, Event.sentinelEv, Event.sentinelEv,
        Event.sentinelEv, Event.vcons 0, Event.vcons 1, Event.vcons 2,
        Event.vcons 3, Event.vcons 4, Event.cwait, Event.cwait, Event.cwait,
        Event.cwait, Event.cwait] : List Event) := by
  have hval : ValidTrace
      [Event.vprod 0, Event.vprod 1, Event.pwait, Event.pwait,
        Event.sentinelEv, Event.sentinelEv, Event.sentinelEv, Event.sentinelEv,
        Event.sentinelEv, Event.vcons 0, Event.vcons 1, Event.vcons 2,
        Event.vcons 3, Event.vcons 4, Event.cwait, Event.cwait, Event.cwait,
        Event.cwait, Event.cwait, Event.shutdownEv] := by
    unfold ValidTrace
    decide
  constructor
  · exact (shutdown_sequencing _
      [Event.vprod 0, Event.vprod 1, Event.pwait, Event.pwait]
      [Event.sentinelEv, Event.sentinelEv, Event.sentinelEv, Event.sentinelEv,
        Event.vcons 0, Event.vcons 1, Event.vcons 2, Event.vcons 3,
        Event.vcons 4, Event.cwait, Event.cwait, Event.cwait, Event.cwait,
        Event.cwait, Event.shutdownEv] hval).1 rfl 0 (by decide)
  · exact (shutdown_sequencing _
      [Event.vprod 0, Event.vprod 1, Event.pwait, Event.pwait,
        Event.sentinelEv, Event.sentinelEv, Event.sentinelEv, Event.sentinelEv,
        Event.sentinelEv, Event.vcons 0, Event.vcons 1, Event.vcons 2,
        Event.vcons 3, Event.vcons 4, Event.cwait, Event.cwait, Event.cwait,
        Event.cwait, Event.cwait] [] hval).2 rfl 4 (by decide)

/-- Modelled from the spec: the synchronization core (producerconsumer.c,
implementing `producer_produce` and `consumer_consume` declared by
producerconsumer_driver.h) is not part of the repository sources.  Following
sections 3, 4.1 and 4.2 of the specification, the Bounded Slot Store is a
fixed-capacity FIFO ring: `produce` appends when a slot is free and blocks
when full; `consume` removes the oldest item and blocks when empty.  A run is
an arbitrary interleaving of such operations. -/
inductive PCOp where
  | produce (d : pc_data)
  | consume
deriving DecidableEq

/-- Modelled from the spec: executing a schedule of produce/consume operations
against the bounded FIFO store.  `buf` is the current buffer content (oldest
first), `consumed` the items returned by `consumer_consume` calls so far, in
order.  A schedule that would run a blocked operation (produce on a full
buffer, consume on an empty one) is not a run and yields `none`. -/
def pc_run (capacity : Nat) :
    List pc_data → List pc_data → List PCOp →
      Option (List pc_data × List pc_data)
  | buf, consumed, [] => some (buf, consumed)
  | buf, consumed, PCOp.produce d :: ops =>
    if buf.length < capacity then pc_run capacity (buf ++ [d]) consumed ops
    else none
  | [], _, PCOp.consume :: _ => none
  | d :: rest, consumed, PCOp.consume :: ops =>
    pc_run capacity rest (consumed ++ [d]) ops

/-- The items handed to `producer_produce` by a schedule, in order. -/
def producedItems (ops : List PCOp) : List pc_data :=
  ops.filterMap (fun op =>
    match op with
    | PCOp.produce d => some d
    | PCOp.consume => none)

/-- Conservation along any run of the store: the items produced during the
schedule, together with the initial buffer and consumed lists, are exactly the
final buffer and consumed lists, as multisets. -/
lemma pc_run_conservation (capacity : Nat) :
    ∀ (ops : List PCOp) (buf consumed finalBuf finalCons : List pc_data),
      pc_run capacity buf consumed ops = some (finalBuf, finalCons) →
      (consumed : Multiset pc_data) + (buf : Multiset pc_data) +
          (producedItems ops : Multiset pc_data) =
        (finalCons : Multiset pc_data) + (finalBuf : Multiset pc_data) := by
  intro ops
  induction ops with
  | nil =>
    intro buf consumed finalBuf finalCons h
    simp only [pc_run, Option.some.injEq, Prod.mk.injEq] at h
    rw [← h.1, ← h.2]
    simp [producedItems]
  | cons op ops ih =>
    intro buf consumed finalBuf finalCons h
    cases op with
    | produce d =>
      rw [pc_run] at h
      by_cases hlen : buf.length < capacity
      · rw [if_pos hlen] at h
        have := ih (buf ++ [d]) consumed finalBuf finalCons h
        rw [← this]
        simp only [producedItems, List.filterMap_cons]
        simp [Multiset.cons_add]
      · rw [if_neg hlen] at h
        exact absurd h (by simp)
    | consume =>
      cases buf with
      | nil =>
        rw [pc_run] at h
        exact absurd h (by simp)
      | cons d rest =>
        rw [pc_run] at h
        have := ih rest (consumed ++ [d]) finalBuf finalCons h
        rw [← this]
        simp only [producedItems, List.filterMap_cons]
        simp [Multiset.cons_add]

/-- C1: exactly-once delivery.  For every capacity and every interleaving of
produce and consume operations that runs against the store, the multiset of
items returned by `consumer_consume` calls plus the items still buffered
equals the multiset of items passed to `producer_produce`; in a drained run
(empty final buffer) the consumed items are a permutation of the produced
ones — no produced item is lost, and no item is delivered to two consume
calls. -/
theorem exactly_once_delivery :
    ∀ (capacity : Nat) (ops : List PCOp) (finalBuf finalCons : List pc_data),
      pc_run capacity [] [] ops = some (finalBuf, finalCons) →
      (producedItems ops : Multiset pc_data) =
        (finalCons : Multiset pc_data) + (finalBuf : Multiset pc_data) ∧
      (finalBuf = [] → List.Perm (producedItems ops) finalCons) := by
  intro capacity ops finalBuf finalCons h
  have hc := pc_run_conservation capacity ops [] [] finalBuf finalCons h
  simp only [Multiset.coe_nil, zero_add] at hc
  refine ⟨hc, ?_⟩
  intro hnil
  subst hnil
  rw [← Multiset.coe_eq_coe]
  simpa using hc

/-- C1 witness: capacity 1, one item produced then consumed. -/
theorem exactly_once_delivery_witness :
    (producedItems [PCOp.produce { item1 := 1, item2 := 2 }, PCOp.consume] :
        Multiset pc_data) =
      (([{ item1 := 1, item2 := 2 }] : List pc_data) : Multiset pc_data) +
        (([] : List pc_data) : Multiset pc_data) ∧
    List.Perm
      (producedItems [PCOp.produce { item1 := 1, item2 := 2 }, PCOp.consume])
      [{ item1 := 1, item2 := 2 }] := by
  have h := exactly_once_delivery 1
    [PCOp.produce { item1 := 1, item2 := 2 }, PCOp.consume]
    [] [{ item1 := 1, item2 := 2 }] (by decide)
  exact ⟨h.1, h.2 rfl⟩

/-- Modelled from the spec: the Termination Protocol state of the store
(section 4.3) — the buffered items plus the Open/Closed flag set by `close()`
after all producers have finished. -/
structure PCState where
  buffer : List pc_data
  closed : Bool
deriving DecidableEq

/-- What a `consume` call observes (section 4.1 / 4.3): an item when one is
buffered; end-of-stream when the store is closed and empty; otherwise the
caller blocks until more items arrive. -/
inductive ConsumeOutcome where
  | item (d : pc_data)
  | endOfStream
  | blocked
deriving DecidableEq

/-- Modelled from the spec: one `consume` call against the closed-flag store.
It removes and returns the oldest buffered item if any; on a closed empty
store it returns end-of-stream (leaving the state unchanged); on an open empty
store the caller blocks. -/
def consume_spec : PCState → ConsumeOutcome × PCState
  | { buffer := d :: rest, closed := c } =>
    (ConsumeOutcome.item d, { buffer := rest, closed := c })
  | { buffer := [], closed := true } =>
    (ConsumeOutcome.endOfStream, { buffer := [], closed := true })
  | { buffer := [], closed := false } =>
    (ConsumeOutcome.blocked, { buffer := [], closed := false })

/-- The outcome of the `n`-th successive `consume` call (counting from 0)
starting from state `st`. -/
def consume_iter : PCState → Nat → ConsumeOutcome × PCState
  | st, 0 => consume_spec st
  | st, n + 1 => consume_iter (consume_spec st).2 n

/-- `consume` never changes the closed flag. -/
lemma consume_spec_closed (st : PCState) :
    (consume_spec st).2.closed = st.closed := by
  obtain ⟨buf, c⟩ := st
  cases buf with
  | nil => cases c <;> rfl
  | cons d rest => rfl

/-- C2: once the store is closed, no `consume` call ever blocks: every call in
any sequence of consume calls returns an item or end-of-stream, a consumer
hitting a closed empty store receives end-of-stream immediately with the state
unchanged, and the call after the buffer is drained (call number
`buffer.length`, counting from 0) returns end-of-stream — end-of-stream within
bounded time, never blocking forever. -/
theorem consume_after_close_terminates :
    ∀ st : PCState, st.closed = true →
      (∀ n : Nat, (consume_iter st n).1 ≠ ConsumeOutcome.blocked) ∧
      (consume_iter st st.buffer.length).1 = ConsumeOutcome.endOfStream ∧
      (st.buffer = [] → consume_spec st = (ConsumeOutcome.endOfStream, st)) := by
  have hnb : ∀ (n : Nat) (st : PCState), st.closed = true →
      (consume_iter st n).1 ≠ ConsumeOutcome.blocked := by
    intro n
    induction n with
    | zero =>
      intro st hcl
      obtain ⟨buf, c⟩ := st
      cases buf with
      | nil => rw [show c = true from hcl]; decide
      | cons d rest => rw [consume_iter]; simp [consume_spec]
    | succ m ih =>
      intro st hcl
      rw [consume_iter]
      exact ih (consume_spec st).2 (by rw [consume_spec_closed]; exact hcl)
  have heos : ∀ (buf : List pc_data) (st : PCState), st.closed = true →
      st.buffer = buf →
      (consume_iter st buf.length).1 = ConsumeOutcome.endOfStream := by
    intro buf
    induction buf with
    | nil =>
      intro st hcl hbuf
      obtain ⟨b, c⟩ := st
      simp only at hbuf
      rw [hbuf, show c = true from hcl]
      rfl
    | cons d rest ih =>
      intro st hcl hbuf
      obtain ⟨b, c⟩ := st
      simp only at hbuf
      rw [hbuf, show c = true from hcl]
      rw [List.length_cons, consume_iter]
      exact ih { buffer := rest, closed := true } rfl rfl
  intro st hcl
  refine ⟨fun n => hnb n st hcl, heos st.buffer st hcl rfl, ?_⟩
  intro hbuf
  obtain ⟨b, c⟩ := st
  simp only at hbuf
  rw [hbuf, show c = true from hcl]
  rfl

/-- C2 witness: a closed store holding one item: the first call returns the
item, the next returns end-of-stream, and no call blocks. -/
theorem consume_after_close_terminates_witness :
    (∀ n : Nat,
      (consume_iter { buffer := [{ item1 := 1, item2 := 2 }], closed := true }
          n).1 ≠ ConsumeOutcome.blocked) ∧
    (consume_iter { buffer := [{ item1 := 1, item2 := 2 }], closed := true }
        1).1 = ConsumeOutcome.endOfStream := by
  have h := consume_after_close_terminates
    { buffer := [{ item1 := 1, item2 := 2 }], closed := true } rfl
  exact ⟨h.1, h.2.1⟩

end ProducerConsumer
